import Mathlib

/-!
Shallow embedding of the outbox-style event log of this repository
(event table, consumer checkpoints, run loop, jittered exponential backoff,
exclusive row claims), with theorems settling the specification claims.

SQL statements are embedded over explicit table states: a table is a `List`
of rows, in the order the store's scan presents them (SQL constrains that
order only where the query has an `ORDER BY`).
-/

/-- Row of the `event` table (repository/migrate.js): `id bigint GENERATED
ALWAYS AS IDENTITY`, `event text`, `object text`, `data jsonb`.  Ids are
store-assigned naturals; the payload is opaque here. -/
structure Event where
  id : Nat
  object : String
  event : String
  data : String
deriving Repr, DecidableEq

/-- Row of the `consumer` table (repository/migrate.js): `name text UNIQUE`,
`checkpoint bigint NOT NULL DEFAULT 0`, `topics text[] NOT NULL DEFAULT
'\x7b*\x7d'`, plus timestamps (we keep `updatedAt`, the only one the code
touches). -/
structure Consumer where
  name : String
  checkpoint : Int
  topics : List String
  updatedAt : Nat
deriving Repr, DecidableEq

/-- EventRepository.findAll(checkpoint, limit)
(src/examples/custom-multi-consumer/repository/event.js):
`SELECT * FROM event WHERE id > $1 LIMIT $2`.  The query has no `ORDER BY`,
so the rows come back in the store's scan order, i.e. the order of the
`table` list, filtered and limited. -/
def EventRepository.findAll (table : List Event) (checkpoint : Int) (limit : Nat) :
    List Event :=
  (table.filter (fun e => checkpoint < (e.id : Int))).take limit

/-- EventRepository.truncate(checkpoint)
(src/examples/custom-multi-consumer/repository/event.js):
`DELETE FROM event WHERE id <= $1`, returning the surviving table and the
`rowCount` of deleted rows. -/
def EventRepository.truncate (table : List Event) (checkpoint : Int) :
    List Event × Nat :=
  (table.filter (fun e => checkpoint < (e.id : Int)),
   (table.filter (fun e => (e.id : Int) ≤ checkpoint)).length)

/-- ConsumerRepository.upsert(name) (src/repository/consumer.js):
`INSERT INTO consumer (name) VALUES ($1) ON CONFLICT(name) DO UPDATE SET
updated_at = now() RETURNING *`.  A fresh row gets the column defaults of
the migration: `checkpoint` 0 and the wildcard topic array.  On conflict
only `updated_at` is refreshed; the row (after the refresh) is returned. -/
def ConsumerRepository.upsert (table : List Consumer) (name : String) (now : Nat) :
    List Consumer × Consumer :=
  match table.find? (fun c => c.name == name) with
  | some c =>
      (table.map (fun r => if r.name == name then { r with updatedAt := now } else r),
       { c with updatedAt := now })
  | none =>
      let fresh : Consumer := { name := name, checkpoint := 0, topics := ["*"], updatedAt := now }
      (table ++ [fresh], fresh)

/-- ConsumerRepository.updateLastCheckpoint(name, checkpoint)
(src/repository/consumer.js): `UPDATE consumer SET checkpoint = $1 WHERE
name = $2`, returning `rowCount > 0`.  The write is unconditional on the
stored value; no row is ever inserted.  (The variant in
src/examples/custom-multi-consumer/repository/consumer.js wraps the same
UPDATE in a `SELECT ... FOR UPDATE` transaction; its committed effect is
identical.) -/
def ConsumerRepository.updateLastCheckpoint (table : List Consumer) (name : String)
    (checkpoint : Int) : List Consumer × Bool :=
  (table.map (fun r => if r.name == name then { r with checkpoint := checkpoint } else r),
   table.any (fun r => r.name == name))

/-- JavaScript `BigInt(x)` applied to the single value of an aggregate
query: `BigInt(null)` throws `TypeError: Cannot convert null to a BigInt`;
on a number it converts. -/
def jsBigInt : Option Int → Except String Int
  | none => .error "TypeError: Cannot convert null to a BigInt"
  | some v => .ok v

/-- SQL `min(checkpoint)` aggregate: one result row whose value is NULL on
an empty table, else the minimum. -/
def sqlMinCheckpoint (table : List Consumer) : Option Int :=
  match table.map (fun c => c.checkpoint) with
  | [] => none
  | x :: xs => some (xs.foldl min x)

/-- ConsumerRepository.minCheckpoint() (src/repository/consumer.js):
`SELECT min(checkpoint) AS checkpoint FROM consumer`, then
`BigInt(result.rows?.[0].checkpoint)`.  On an empty consumer table the
aggregate is NULL and the BigInt conversion throws. -/
def ConsumerRepository.minCheckpoint (table : List Consumer) : Except String Int :=
  jsBigInt (sqlMinCheckpoint table)

/-- Consumer.createTopicChecker(consumer)
(src/examples/level-2-custom-multi-consumer, Consumer class): `allTopics =
consumer.topics.includes("*")`; the returned predicate answers
`allTopics || topics.has(topic)` (the JS builds a Map from the topics list,
so `has` is list membership). -/
def Consumer.createTopicChecker (consumer : Consumer) : String → Bool :=
  let allTopics := consumer.topics.contains "*"
  fun topic => allTopics || consumer.topics.contains topic

/-- Iteration of Consumer.run over a scanned batch (the `for await` loop).
`checkTopic` is the topic predicate; `handle` abstracts the try-block body
run for a matching event (the external processing collaborator of the spec;
the source logs there).  A matching event whose handling succeeds, and any
non-matching event (the skip branch never throws), lets the loop reach
`lastCheckpoint = event.id`; a failure is caught and `break`s before that
assignment, so the tentative checkpoint keeps its previous value. -/
def Consumer.runBatch (checkTopic : String → Bool) (handle : Event → Bool) :
    Int → List Event → Int
  | lastCheckpoint, [] => lastCheckpoint
  | lastCheckpoint, e :: rest =>
      if checkTopic e.event then
        if handle e then Consumer.runBatch checkTopic handle (e.id : Int) rest
        else lastCheckpoint
      else
        Consumer.runBatch checkTopic handle (e.id : Int) rest

/-- Joint state of the two tables the run loop touches. -/
structure DbState where
  events : List Event
  consumers : List Consumer
deriving Repr, DecidableEq

/-- Consumer.run() (src/examples/level-2-custom-multi-consumer, Consumer
class, BATCH_SIZE = 1000): upsert the consumer row, build the topic
checker, scan events past the checkpoint; on an empty batch return `false`
(here `none`); else iterate the batch, write the resulting checkpoint
unconditionally, compute the minimum checkpoint (whose thrown conversion
error would propagate) and truncate with it, returning the truncated row
count.  `handle` abstracts the external processing collaborator, `now` the
row timestamp. -/
def Consumer.run (name : String) (handle : Event → Bool) (db : DbState) (now : Nat) :
    Except String (DbState × Option Nat) :=
  let up := ConsumerRepository.upsert db.consumers name now
  let consumer := up.2
  let checkTopic := Consumer.createTopicChecker consumer
  let events := EventRepository.findAll db.events consumer.checkpoint 1000
  if events.isEmpty then
    .ok ({ db with consumers := up.1 }, none)
  else
    let lastCheckpoint := Consumer.runBatch checkTopic handle consumer.checkpoint events
    let upd := ConsumerRepository.updateLastCheckpoint up.1 consumer.name lastCheckpoint
    match ConsumerRepository.minCheckpoint upd.1 with
    | .error e => .error e
    | .ok m =>
        let tr := EventRepository.truncate db.events m
        .ok ({ events := tr.1, consumers := upd.1 }, some tr.2)

/-- ExponentialBackoff's duration table (src/exponential-backoff.js):
`Array(10).fill(0).map((_, i) => Math.pow(2, i) * 1000)` — ten entries
doubling from a base of 1000 ms. -/
def ExponentialBackoff.durations : List Nat :=
  (List.range 10).map (fun i => 2 ^ i * 1000)

/-- ExponentialBackoff's `duration` getter (src/exponential-backoff.js):
`durations[Math.min(attempts, durations.length - 1)]`, jittered as
`Math.floor(duration / 2 + Math.random() * duration)`; `r` is the
`Math.random()` draw. -/
def ExponentialBackoff.duration (attempts : Nat) (r : ℚ) : Int :=
  let d : ℚ :=
    (ExponentialBackoff.durations.getD
      (min attempts (ExponentialBackoff.durations.length - 1)) 0 : Nat)
  ⌊d / 2 + r * d⌋

/-- Process-local state of CronBackoff
(src/examples/custom-multi-consumer/cron.js): the wrapped
ExponentialBackoff's `attempts` counter and the `triggeredAt` timestamp. -/
structure CronBackoffState where
  attempts : Nat
  triggeredAt : Int
deriving Repr, DecidableEq

/-- Guard of the scheduled callback in CronBackoff.schedule:
`this.backoff.attempts > 0 && Date.now() < this.backoff.duration +
this.triggeredAt` — when it holds the tick is suppressed (no work is
attempted). -/
def CronBackoff.suppressed (s : CronBackoffState) (now : Int) (r : ℚ) : Prop :=
  0 < s.attempts ∧ now < ExponentialBackoff.duration s.attempts r + s.triggeredAt

instance (s : CronBackoffState) (now : Int) (r : ℚ) :
    Decidable (CronBackoff.suppressed s now r) := by
  unfold CronBackoff.suppressed; infer_instance

/-- One tick of the callback scheduled by CronBackoff.schedule
(src/examples/custom-multi-consumer/cron.js): if suppressed, increment
`attempts` and return; else run `fn` (its truthiness is `executed`), reset
`attempts` on a truthy result and increment it otherwise, and set
`triggeredAt` to the time after `fn` finished (`now2`). -/
def CronBackoff.tick (s : CronBackoffState) (now : Int) (r : ℚ) (executed : Bool)
    (now2 : Int) : CronBackoffState :=
  if CronBackoff.suppressed s now r then
    { s with attempts := s.attempts + 1 }
  else
    { attempts := if executed then 0 else s.attempts + 1, triggeredAt := now2 }

/-- Outcome of the `SELECT ... FOR UPDATE NOWAIT` step of the targeted
`stream(event)` claim: the row was selected and row-locked, or no row
matched (the code then commits and returns), or the row was already locked
by another in-flight transaction, in which case NOWAIT raises
`lock_not_available` at once instead of queueing for the lock. -/
inductive ClaimOutcome where
  | claimed (e : Event)
  | empty
  | lockNotAvailable
deriving Repr, DecidableEq

/-- State of the event table together with the set of row locks held by
in-flight transactions. -/
structure LockState where
  events : List Event
  locked : List Nat
deriving Repr, DecidableEq

/-- Lock-acquisition phase of the targeted claim in `stream`
(src/unnamed/part_003): `SELECT * FROM event WHERE id = $1 LIMIT 1 FOR
UPDATE NOWAIT`.  Row absent: empty result, no lock.  Row present but
locked by another transaction: `lock_not_available` immediately, state
unchanged (no waiting, no lock queued).  Row present and free: the row is
returned and its lock acquired. -/
def streamAcquire (s : LockState) (targetId : Nat) : ClaimOutcome × LockState :=
  match s.events.find? (fun e => e.id == targetId) with
  | none => (.empty, s)
  | some e =>
      if s.locked.contains targetId then (.lockNotAvailable, s)
      else (.claimed e, { s with locked := targetId :: s.locked })

/-- Completion phase of `stream` on a claimed event (src/unnamed/part_003):
on handler success, `DELETE FROM event WHERE id = $1` then COMMIT (the
commit releases the row lock); on handler failure the catch block runs
ROLLBACK, releasing the lock and leaving the row intact.  Returns the state
and whether the event was processed-and-deleted. -/
def streamFinish (s : LockState) (e : Event) (handleOk : Bool) : LockState × Bool :=
  if handleOk then
    ({ events := s.events.filter (fun r => r.id != e.id),
       locked := s.locked.filter (fun i => i != e.id) }, true)
  else
    ({ s with locked := s.locked.filter (fun i => i != e.id) }, false)

/-- The notification handler of src/index.js: `BEGIN; SELECT * FROM event
WHERE id = $1 FOR UPDATE` — plain FOR UPDATE, so under contention the
transaction **waits** for the lock instead of failing; this function is the
body as it runs once the lock is free (for a contended call: after the
winner committed), which is why it takes a lock-free state.  The code then
logs "processing event" unconditionally — it never checks whether the
SELECT returned a row — and runs `DELETE FROM event WHERE id = $1`,
reporting the deleted `rowCount`.  Returns (state, processed, rowCount). -/
def notificationHandler (s : LockState) (eventId : Nat) : LockState × Bool × Nat :=
  let deleted := (s.events.filter (fun e => e.id == eventId)).length
  (⟨s.events.filter (fun e => e.id != eventId), s.locked⟩, true, deleted)

/-- EventStore.findAll(limit) (src/index.js, EventStore class):
`SELECT * FROM event ORDER BY id LIMIT $1 FOR UPDATE` — sorted ascending by
id, but with no checkpoint filter: the scan always starts from the lowest
surviving id. -/
def EventStore.findAll (table : List Event) (limit : Nat) : List Event :=
  (table.insertionSort (fun a b => a.id ≤ b.id)).take limit

/-- Iterated idle ticks of CronBackoff from a fresh state: the scheduled
callback fires with `fn` never productive (`executed = false`), a zero
jitter draw and a constant clock. -/
def idleTicks (n : Nat) : CronBackoffState :=
  (fun s => CronBackoff.tick s 0 0 false 0)^[n] ⟨0, 0⟩

/-! ## Helper lemmas -/

theorem find?_map_of_namePreserving (f : Consumer → Consumer)
    (hf : ∀ r, (f r).name = r.name) (name : String) :
    ∀ l : List Consumer,
      (l.map f).find? (fun c => c.name == name) =
        (l.find? (fun c => c.name == name)).map f := by
  intro l
  induction l with
  | nil => rfl
  | cons a l ih =>
      simp only [List.map_cons, List.find?_cons, hf a]
      cases h : (a.name == name) with
      | true => simp
      | false => simpa using ih

theorem find?_append_of_none {p : Consumer → Bool} {l₁ l₂ : List Consumer}
    (h : l₁.find? p = none) : (l₁ ++ l₂).find? p = l₂.find? p := by
  induction l₁ with
  | nil => rfl
  | cons a l ih =>
      rw [List.find?_cons] at h
      cases hp : p a with
      | true => rw [hp] at h; cases h
      | false =>
          rw [hp] at h
          rw [List.cons_append, List.find?_cons, hp]
          exact ih h

theorem foldl_min_le_init : ∀ (xs : List Int) (x : Int), xs.foldl min x ≤ x := by
  intro xs
  induction xs with
  | nil => intro x; exact le_refl x
  | cons a xs ih =>
      intro x
      calc (a :: xs).foldl min x = xs.foldl min (min x a) := rfl
        _ ≤ min x a := ih (min x a)
        _ ≤ x := min_le_left x a

theorem foldl_min_le_mem : ∀ (xs : List Int) (x a : Int), a ∈ xs → xs.foldl min x ≤ a := by
  intro xs
  induction xs with
  | nil => intro x a ha; cases ha
  | cons b xs ih =>
      intro x a ha
      rcases List.mem_cons.mp ha with h | h
      · subst h
        calc (a :: xs).foldl min x = xs.foldl min (min x a) := rfl
          _ ≤ min x a := foldl_min_le_init xs (min x a)
          _ ≤ a := min_le_right x a
      · exact ih (min x b) a h

theorem foldl_min_mem : ∀ (xs : List Int) (x : Int), xs.foldl min x = x ∨ xs.foldl min x ∈ xs := by
  intro xs
  induction xs with
  | nil => intro x; exact Or.inl rfl
  | cons a xs ih =>
      intro x
      rcases ih (min x a) with h | h
      · rcases min_cases x a with ⟨hmin, _⟩ | ⟨hmin, _⟩
        · exact Or.inl (by rw [List.foldl_cons, h, hmin])
        · exact Or.inr (by rw [List.foldl_cons, h, hmin]; exact List.mem_cons_self a xs)
      · exact Or.inr (List.mem_cons_of_mem a h)

/-! ## C2: bulk truncation -/

/-- C2: `EventRepository.truncate w` deletes exactly the events with
`id ≤ w`: an event of the input table survives iff its id exceeds the
watermark, the survivor count and the reported deleted `rowCount` add up to
the whole table, and — when every id is at least 1 — `truncate 0` keeps the
table unchanged and deletes nothing. -/
theorem truncate_deletes_exactly_upTo (table : List Event) (w : Int) :
    (∀ e, e ∈ (EventRepository.truncate table w).1 ↔ e ∈ table ∧ w < (e.id : Int)) ∧
    (EventRepository.truncate table w).1.length + (EventRepository.truncate table w).2 =
      table.length ∧
    ((∀ e ∈ table, 1 ≤ e.id) → EventRepository.truncate table 0 = (table, 0)) := by
  refine ⟨?_, ?_, ?_⟩
  · intro e
    simp [EventRepository.truncate, List.mem_filter]
  · simp only [EventRepository.truncate]
    induction table with
    | nil => rfl
    | cons a t ih =>
        by_cases h : w < (a.id : Int)
        · have h' : ¬ ((a.id : Int) ≤ w) := not_le.mpr h
          simp only [List.filter_cons, decide_eq_true_eq, h, h', if_true, if_false,
            decide_eq_false_iff_not]
          simp only [List.length_cons]
          omega
        · have h' : (a.id : Int) ≤ w := not_lt.mp h
          simp only [List.filter_cons, decide_eq_true_eq, h, h', if_true, if_false,
            decide_eq_false_iff_not]
          simp only [List.length_cons]
          omega
  · intro hpos
    simp only [EventRepository.truncate, Prod.mk.injEq]
    constructor
    · apply List.filter_eq_self.mpr
      intro e he
      have := hpos e he
      simp only [decide_eq_true_eq]
      omega
    · have : table.filter (fun e => decide ((e.id : Int) ≤ 0)) = [] := by
        apply List.filter_eq_nil_iff.mpr
        intro e he
        have := hpos e he
        simp only [decide_eq_true_eq]
        omega
      rw [this]
      rfl

/-- Witness for C2 at a concrete table: ids 1,2,3 are all ≥ 1 and
`truncate 0` is the identity with zero deletions. -/
theorem truncate_deletes_exactly_upTo_witness :
    (∀ e ∈ [Event.mk 1 "person" "person_created" "d1",
            Event.mk 2 "person" "person_created" "d2",
            Event.mk 3 "person" "person_created" "d3"], 1 ≤ e.id) ∧
    EventRepository.truncate
      [Event.mk 1 "person" "person_created" "d1",
       Event.mk 2 "person" "person_created" "d2",
       Event.mk 3 "person" "person_created" "d3"] 0 =
      ([Event.mk 1 "person" "person_created" "d1",
        Event.mk 2 "person" "person_created" "d2",
        Event.mk 3 "person" "person_created" "d3"], 0) :=
  ⟨by decide,
   (truncate_deletes_exactly_upTo
      [Event.mk 1 "person" "person_created" "d1",
       Event.mk 2 "person" "person_created" "d2",
       Event.mk 3 "person" "person_created" "d3"] 0).2.2 (by decide)⟩

/-! ## C10: advanceCheckpoint writes unconditionally -/

/-- C10: `updateLastCheckpoint` reports `true` exactly when a row with the
given name already exists, never adds or removes rows, leaves rows of other
names untouched, and overwrites the named row's checkpoint with the given
value with no monotonicity guard (the statement puts no constraint relating
`v` to the stored checkpoint). -/
theorem updateLastCheckpoint_unconditional (table : List Consumer) (name : String) (v : Int) :
    ((ConsumerRepository.updateLastCheckpoint table name v).2 = true ↔
       ∃ c ∈ table, c.name = name) ∧
    (ConsumerRepository.updateLastCheckpoint table name v).1.length = table.length ∧
    (∀ c ∈ table, c.name ≠ name →
       c ∈ (ConsumerRepository.updateLastCheckpoint table name v).1) ∧
    (∀ c ∈ table, c.name = name →
       { c with checkpoint := v } ∈ (ConsumerRepository.updateLastCheckpoint table name v).1) ∧
    (∀ c ∈ (ConsumerRepository.updateLastCheckpoint table name v).1,
       c.name = name → c.checkpoint = v) := by
  refine ⟨?_, ?_, ?_, ?_, ?_⟩
  · simp [ConsumerRepository.updateLastCheckpoint, List.any_eq_true]
  · simp [ConsumerRepository.updateLastCheckpoint]
  · intro c hc hne
    simp only [ConsumerRepository.updateLastCheckpoint]
    have : (fun r => if r.name == name then { r with checkpoint := v } else r) c = c := by
      simp [hne]
    exact this ▸ List.mem_map_of_mem _ hc
  · intro c hc heq
    simp only [ConsumerRepository.updateLastCheckpoint]
    have : (fun r => if r.name == name then { r with checkpoint := v } else r) c =
        { c with checkpoint := v } := by
      simp [heq]
    exact this ▸ List.mem_map_of_mem _ hc
  · intro c hc heq
    simp only [ConsumerRepository.updateLastCheckpoint, List.mem_map] at hc
    obtain ⟨r, _, hr⟩ := hc
    by_cases h : (r.name == name) = true
    · rw [if_pos h] at hr
      rw [← hr]
    · rw [if_neg h] at hr
      exfalso
      apply h
      rw [hr]
      exact beq_iff_eq.mpr heq

/-- Witness for C10: on a one-row table for "john" with checkpoint 7, an
update to the smaller value 2 reports `true` and the stored checkpoint
becomes 2. -/
theorem updateLastCheckpoint_unconditional_witness :
    Consumer.mk "john" 2 ["*"] 0 ∈
      (ConsumerRepository.updateLastCheckpoint [Consumer.mk "john" 7 ["*"] 0] "john" 2).1 ∧
    (ConsumerRepository.updateLastCheckpoint [Consumer.mk "john" 7 ["*"] 0] "john" 2).2 = true :=
  ⟨(updateLastCheckpoint_unconditional [Consumer.mk "john" 7 ["*"] 0] "john" 2).2.2.2.1
      (Consumer.mk "john" 7 ["*"] 0) (by decide) (by decide),
   ((updateLastCheckpoint_unconditional [Consumer.mk "john" 7 ["*"] 0] "john" 2).1).mpr
      ⟨Consumer.mk "john" 7 ["*"] 0, by decide, by decide⟩⟩

/-! ## C7: upsert semantics -/

/-- C7: `upsert name` creates the row with checkpoint 0 and the wildcard
topic when no row of that name exists, and on conflict returns the existing
row with only `updatedAt` refreshed — checkpoint and topics unchanged, no
row added, rows of other names untouched.  In both cases the returned row
is the current row of that name in the resulting table. -/
theorem upsert_create_or_refresh (table : List Consumer) (name : String) (now : Nat) :
    (table.find? (fun c => c.name == name) = none →
       ConsumerRepository.upsert table name now =
         (table ++ [Consumer.mk name 0 ["*"] now], Consumer.mk name 0 ["*"] now)) ∧
    (∀ c, table.find? (fun c => c.name == name) = some c →
       (ConsumerRepository.upsert table name now).2 = { c with updatedAt := now } ∧
       (ConsumerRepository.upsert table name now).2.checkpoint = c.checkpoint ∧
       (ConsumerRepository.upsert table name now).2.topics = c.topics ∧
       (ConsumerRepository.upsert table name now).1.length = table.length ∧
       (∀ r ∈ table, r.name ≠ name → r ∈ (ConsumerRepository.upsert table name now).1)) ∧
    (ConsumerRepository.upsert table name now).1.find? (fun c => c.name == name) =
      some (ConsumerRepository.upsert table name now).2 := by
  refine ⟨?_, ?_, ?_⟩
  · intro h
    simp only [ConsumerRepository.upsert, h]
  · intro c h
    have hu : ConsumerRepository.upsert table name now =
        (table.map (fun r => if r.name == name then { r with updatedAt := now } else r),
         { c with updatedAt := now }) := by
      simp only [ConsumerRepository.upsert, h]
    rw [hu]
    refine ⟨rfl, rfl, rfl, by simp, ?_⟩
    intro r hr hne
    have : (fun r => if r.name == name then { r with updatedAt := now } else r) r = r := by
      simp [hne]
    exact this ▸ List.mem_map_of_mem _ hr
  · cases h : table.find? (fun c => c.name == name) with
    | none =>
        simp only [ConsumerRepository.upsert, h]
        rw [find?_append_of_none h]
        simp [List.find?_cons]
    | some c =>
        have hc0 := List.find?_some h
        have hc : (c.name == name) = true := hc0
        simp only [ConsumerRepository.upsert, h]
        rw [find?_map_of_namePreserving
          (fun r => if r.name == name then { r with updatedAt := now } else r)
          (fun r => by by_cases hr : (r.name == name) = true <;> simp [hr]) name table]
        rw [h]
        simp [hc]
        intro hne
        exact absurd (beq_iff_eq.mp hc) hne

/-- Witness for C7: upserting "alice" into a table holding only "john"
appends the default row (checkpoint 0, wildcard topic) and returns it;
upserting "john" again returns his row with checkpoint 7 kept and only
`updatedAt` refreshed. -/
theorem upsert_create_or_refresh_witness :
    ConsumerRepository.upsert [Consumer.mk "john" 7 ["*"] 0] "alice" 5 =
      ([Consumer.mk "john" 7 ["*"] 0, Consumer.mk "alice" 0 ["*"] 5],
       Consumer.mk "alice" 0 ["*"] 5) ∧
    (ConsumerRepository.upsert [Consumer.mk "john" 7 ["*"] 0] "john" 5).2 =
      Consumer.mk "john" 7 ["*"] 5 :=
  ⟨(upsert_create_or_refresh [Consumer.mk "john" 7 ["*"] 0] "alice" 5).1 (by decide),
   ((upsert_create_or_refresh [Consumer.mk "john" 7 ["*"] 0] "john" 5).2.1
      (Consumer.mk "john" 7 ["*"] 0) (by decide)).1⟩

/-! ## C3: minCheckpoint on an empty consumer set -/

/-- C3 counterexample: on the empty consumer set, `minCheckpoint` does not
return undefined — the `BigInt` conversion of the NULL aggregate throws, so
the call errors (contradicting "not an error"). -/
theorem minCheckpoint_empty_is_error :
    ConsumerRepository.minCheckpoint [] =
      Except.error "TypeError: Cannot convert null to a BigInt" := rfl

/-- C3 amended: `minCheckpoint` throws the BigInt conversion error on an
empty consumer set (rather than returning undefined), and on a nonempty set
returns the minimum checkpoint over all rows: a value stored by some row
and below-or-equal to every row's checkpoint. -/
theorem minCheckpoint_error_or_min :
    ConsumerRepository.minCheckpoint [] =
      Except.error "TypeError: Cannot convert null to a BigInt" ∧
    ∀ table : List Consumer, table ≠ [] →
      ∃ m, ConsumerRepository.minCheckpoint table = Except.ok m ∧
        m ∈ table.map (fun c => c.checkpoint) ∧
        ∀ c ∈ table, m ≤ c.checkpoint := by
  refine ⟨rfl, ?_⟩
  intro table htab
  cases table with
  | nil => exact absurd rfl htab
  | cons a t =>
      refine ⟨(t.map (fun c : Consumer => c.checkpoint)).foldl min a.checkpoint, ?_, ?_, ?_⟩
      · rfl
      · rcases foldl_min_mem (t.map (fun c => c.checkpoint)) a.checkpoint with h | h
        · rw [h]; exact List.mem_map_of_mem _ (List.mem_cons_self a t)
        · rw [List.map_cons]; exact List.mem_cons_of_mem _ h
      · intro c hc
        rcases List.mem_cons.mp hc with h | h
        · subst h; exact foldl_min_le_init _ _
        · exact foldl_min_le_mem _ _ _ (List.mem_map_of_mem _ h)

/-- Witness for C3's amended theorem at a two-row table: the minimum of
checkpoints 7 and 2 is reported as 2. -/
theorem minCheckpoint_error_or_min_witness :
    ([Consumer.mk "john" 7 ["*"] 0, Consumer.mk "alice" 2 ["*"] 0] ≠
       ([] : List Consumer)) ∧
    ∃ m, ConsumerRepository.minCheckpoint
        [Consumer.mk "john" 7 ["*"] 0, Consumer.mk "alice" 2 ["*"] 0] = Except.ok m ∧
      m ∈ [Consumer.mk "john" 7 ["*"] 0, Consumer.mk "alice" 2 ["*"] 0].map
            (fun c => c.checkpoint) ∧
      ∀ c ∈ [Consumer.mk "john" 7 ["*"] 0, Consumer.mk "alice" 2 ["*"] 0],
        m ≤ c.checkpoint :=
  ⟨by decide,
   minCheckpoint_error_or_min.2
     [Consumer.mk "john" 7 ["*"] 0, Consumer.mk "alice" 2 ["*"] 0] (by decide)⟩

/-! ## C1: the cursor scan -/

/-- C1: evaluation at the failing input.  The scan query of
`EventRepository.findAll` has no `ORDER BY`, so with the store presenting
the rows as [id 2, id 1] — an order SQL permits — the scan returns them in
that order, which is not strictly ascending by id; and the sibling
`EventStore.findAll` (src/index.js) orders by id but takes no checkpoint,
so for checkpoint 1 it still returns the event with id 1. -/
theorem findAll_not_ascending_at_failing_input :
    EventRepository.findAll
      [Event.mk 2 "person" "person_created" "d2", Event.mk 1 "person" "person_created" "d1"]
      0 10 =
      [Event.mk 2 "person" "person_created" "d2",
       Event.mk 1 "person" "person_created" "d1"] ∧
    ¬ List.Pairwise (· < ·)
      ((EventRepository.findAll
        [Event.mk 2 "person" "person_created" "d2", Event.mk 1 "person" "person_created" "d1"]
        0 10).map Event.id) ∧
    Event.mk 1 "person" "person_created" "d1" ∈
      EventStore.findAll
        [Event.mk 2 "person" "person_created" "d2", Event.mk 1 "person" "person_created" "d1"]
        10 ∧
    ¬ ((1 : Int) < (Event.mk 1 "person" "person_created" "d1").id) := by
  refine ⟨rfl, by decide, ?_, by decide⟩
  decide

/-! ## C6: topic filtering is a permanent skip -/

/-- C6: an event that fails the topic filter advances the tentative
checkpoint to its id exactly as a successfully processed event does; once
the checkpoint is at or past an event's id, no later scan returns that
event (permanent skip); and the wildcard topic "*" makes the checker accept
every topic. -/
theorem filtered_event_advances_checkpoint (ct : String → Bool) (handle : Event → Bool)
    (cp : Int) (e : Event) (rest : List Event) :
    (ct e.event = false →
       Consumer.runBatch ct handle cp (e :: rest) =
         Consumer.runBatch ct handle (e.id : Int) rest) ∧
    (ct e.event = true → handle e = true →
       Consumer.runBatch ct handle cp (e :: rest) =
         Consumer.runBatch ct handle (e.id : Int) rest) ∧
    (∀ (table : List Event) (limit : Nat) (cp' : Int),
       (e.id : Int) ≤ cp' → e ∉ EventRepository.findAll table cp' limit) ∧
    (∀ consumer : Consumer, consumer.topics.contains "*" = true →
       ∀ topic, Consumer.createTopicChecker consumer topic = true) := by
  refine ⟨?_, ?_, ?_, ?_⟩
  · intro h
    simp [Consumer.runBatch, h]
  · intro h1 h2
    simp [Consumer.runBatch, h1, h2]
  · intro table limit cp' hle hmem
    have hmem' := List.take_subset limit (table.filter (fun x => decide (cp' < (x.id : Int)))) hmem
    have := List.of_mem_filter hmem'
    simp only [decide_eq_true_eq] at this
    omega
  · intro consumer hw topic
    simp [Consumer.createTopicChecker, hw]
    exact Or.inl (by simpa using hw)

/-- Witness for C6: a consumer subscribed only to "Y" scans an event with
eventType "X" and id 5 — the batch result advances to 5; once the
checkpoint is 5 the event is not scanned again; and a wildcard consumer
accepts topic "X". -/
theorem filtered_event_advances_checkpoint_witness :
    Consumer.runBatch (fun t => t == "Y") (fun _ => true) 0
        [Event.mk 5 "person" "X" "d"] =
      Consumer.runBatch (fun t => t == "Y") (fun _ => true) 5 [] ∧
    Event.mk 5 "person" "X" "d" ∉
      EventRepository.findAll [Event.mk 5 "person" "X" "d"] 5 10 ∧
    Consumer.createTopicChecker (Consumer.mk "alice" 0 ["*"] 0) "X" = true :=
  ⟨(filtered_event_advances_checkpoint (fun t => t == "Y") (fun _ => true) 0
      (Event.mk 5 "person" "X" "d") []).1 (by decide),
   (filtered_event_advances_checkpoint (fun t => t == "Y") (fun _ => true) 0
      (Event.mk 5 "person" "X" "d") []).2.2.1 [Event.mk 5 "person" "X" "d"] 10 5 (by decide),
   (filtered_event_advances_checkpoint (fun t => t == "Y") (fun _ => true) 0
      (Event.mk 5 "person" "X" "d") []).2.2.2 (Consumer.mk "alice" 0 ["*"] 0) (by decide) "X"⟩

/-- Batch iteration in the presence of a first failure: with every event of
`pre` either filtered out or handled successfully, a matching `bad` event
whose handling fails makes the loop `break`, and the resulting tentative
checkpoint is the id of the last event of `pre` (the initial checkpoint if
`pre` is empty) — the fold that overwrites the checkpoint with each reached
event's id. -/
theorem runBatch_break (ct : String → Bool) (handle : Event → Bool) :
    ∀ (pre : List Event) (cp : Int) (bad : Event) (rest : List Event),
      (∀ e ∈ pre, ct e.event = true → handle e = true) →
      ct bad.event = true → handle bad = false →
      Consumer.runBatch ct handle cp (pre ++ bad :: rest) =
        pre.foldl (fun _ e => ((e.id : Nat) : Int)) cp := by
  intro pre
  induction pre with
  | nil =>
      intro cp bad rest _ hb hf
      simp [Consumer.runBatch, hb, hf]
  | cons a pre ih =>
      intro cp bad rest hpre hb hf
      have hrec := ih ((a.id : Nat) : Int) bad rest
        (fun e he hct => hpre e (List.mem_cons_of_mem a he) hct) hb hf
      cases ha : ct a.event with
      | true =>
          have hha : handle a = true := hpre a (List.mem_cons_self a pre) ha
          simp only [List.cons_append, Consumer.runBatch, ha, hha, if_true,
            List.foldl_cons]
          exact hrec
      | false =>
          simp only [List.cons_append, Consumer.runBatch, ha, if_false,
            List.foldl_cons]
          exact hrec

theorem updateMap_name_preserving (nm : String) (v : Int) :
    ∀ r : Consumer,
      ((fun r : Consumer => if r.name == nm then { r with checkpoint := v } else r) r).name =
        r.name := by
  intro r
  by_cases h : (r.name == nm) = true <;> simp [h]

theorem refreshMap_name_preserving (nm : String) (v : Nat) :
    ∀ r : Consumer,
      ((fun r : Consumer => if r.name == nm then { r with updatedAt := v } else r) r).name =
        r.name := by
  intro r
  by_cases h : (r.name == nm) = true <;> simp [h]

theorem minCheckpoint_cons (a : Consumer) (t : List Consumer) :
    ConsumerRepository.minCheckpoint (a :: t) =
      Except.ok ((t.map (fun c : Consumer => c.checkpoint)).foldl min a.checkpoint) := rfl

/-! ## C5: a mid-batch failure stops iteration -/

/-- C5: when the scan returns `pre ++ bad :: rest`, every event of `pre` is
either filtered or handled successfully, `bad` matches the topic filter and
its handling fails, then `Consumer.run` completes and the checkpoint it
writes for the consumer is the id of the last event of `pre` — the fold of
ids over `pre` starting from the prior checkpoint — so no event from the
failing position onward is checkpointed past.  The hypotheses `hgt` and
`hlen` make the scan return exactly `db.events`. -/
theorem run_stops_at_first_failure
    (name : String) (handle : Event → Bool) (db : DbState) (now : Nat)
    (c : Consumer) (pre rest : List Event) (bad : Event)
    (hfind : db.consumers.find? (fun r => r.name == name) = some c)
    (hev : db.events = pre ++ bad :: rest)
    (hgt : ∀ e ∈ db.events, c.checkpoint < (e.id : Int))
    (hlen : db.events.length ≤ 1000)
    (hpre : ∀ e ∈ pre, Consumer.createTopicChecker c e.event = true → handle e = true)
    (hbad : Consumer.createTopicChecker c bad.event = true)
    (hfail : handle bad = false) :
    ∃ (db' : DbState) (n : Nat), Consumer.run name handle db now = .ok (db', some n) ∧
      ∃ row, db'.consumers.find? (fun r => r.name == name) = some row ∧
        row.checkpoint = pre.foldl (fun _ e => ((e.id : Nat) : Int)) c.checkpoint := by
  have hc0 := List.find?_some hfind
  have hcname : (c.name == name) = true := hc0
  have hup : ConsumerRepository.upsert db.consumers name now =
      (db.consumers.map (fun r => if r.name == name then { r with updatedAt := now } else r),
       { c with updatedAt := now }) := by
    simp only [ConsumerRepository.upsert, hfind]
  have hfa : EventRepository.findAll db.events c.checkpoint 1000 = db.events := by
    unfold EventRepository.findAll
    have h1 : db.events.filter (fun e => decide (c.checkpoint < (e.id : Int))) = db.events :=
      List.filter_eq_self.mpr (fun e he => by simpa using hgt e he)
    rw [h1]
    exact List.take_of_length_le hlen
  have hie : db.events.isEmpty = false := by
    rw [hev]; cases pre <;> rfl
  set L : Int := pre.foldl (fun _ e => ((e.id : Nat) : Int)) c.checkpoint with hL
  have hlast : Consumer.runBatch (Consumer.createTopicChecker c) handle c.checkpoint db.events =
      L := by
    rw [hev, hL]
    exact runBatch_break (Consumer.createTopicChecker c) handle pre c.checkpoint bad rest
      hpre hbad hfail
  have hct2 : Consumer.createTopicChecker { c with updatedAt := now } =
      Consumer.createTopicChecker c := rfl
  obtain ⟨d, ds, hdb⟩ : ∃ d ds, db.consumers = d :: ds := by
    cases hcons : db.consumers with
    | nil => rw [hcons] at hfind; cases hfind
    | cons d ds => exact ⟨d, ds, rfl⟩
  have hXfind : (List.map
        (fun r : Consumer => if r.name == c.name then { r with checkpoint := L } else r)
        (List.map
          (fun r : Consumer => if r.name == name then { r with updatedAt := now } else r)
          db.consumers)).find? (fun r => r.name == name) =
      some { c with checkpoint := L, updatedAt := now } := by
    rw [find?_map_of_namePreserving _ (updateMap_name_preserving c.name L) name,
      find?_map_of_namePreserving _ (refreshMap_name_preserving name now) name, hfind]
    have heq : c.name = name := beq_iff_eq.mp hcname
    simp [heq]
  obtain ⟨M, hM⟩ : ∃ M, ConsumerRepository.minCheckpoint (List.map
        (fun r : Consumer => if r.name == c.name then { r with checkpoint := L } else r)
        (List.map
          (fun r : Consumer => if r.name == name then { r with updatedAt := now } else r)
          db.consumers)) = Except.ok M := by
    rw [hdb]
    simp only [List.map_cons]
    exact ⟨_, minCheckpoint_cons _ _⟩
  simp only [Consumer.run, hup, hfa, hie, Bool.false_eq_true, if_false, hct2, hlast,
    ConsumerRepository.updateLastCheckpoint, hM]
  exact ⟨_, _, rfl, _, hXfind, rfl⟩

/-- Witness for C5, Scenario E: events 3, 4, 5 are pending for "john" at
checkpoint 2; handling id 5 fails; the run completes and the stored
checkpoint is the fold over [3, 4] from 2, i.e. 4. -/
theorem run_stops_at_first_failure_witness :
    ∃ (db' : DbState) (n : Nat),
      Consumer.run "john" (fun e => e.id != 5)
        (DbState.mk
          [Event.mk 3 "person" "person_created" "d3",
           Event.mk 4 "person" "person_created" "d4",
           Event.mk 5 "person" "person_created" "d5"]
          [Consumer.mk "john" 2 ["*"] 0]) 1 = .ok (db', some n) ∧
      ∃ row, db'.consumers.find? (fun r => r.name == "john") = some row ∧
        row.checkpoint =
          [Event.mk 3 "person" "person_created" "d3",
           Event.mk 4 "person" "person_created" "d4"].foldl
            (fun _ e => ((e.id : Nat) : Int)) (Consumer.mk "john" 2 ["*"] 0).checkpoint :=
  run_stops_at_first_failure "john" (fun e => e.id != 5)
    (DbState.mk
      [Event.mk 3 "person" "person_created" "d3",
       Event.mk 4 "person" "person_created" "d4",
       Event.mk 5 "person" "person_created" "d5"]
      [Consumer.mk "john" 2 ["*"] 0]) 1
    (Consumer.mk "john" 2 ["*"] 0)
    [Event.mk 3 "person" "person_created" "d3", Event.mk 4 "person" "person_created" "d4"]
    [] (Event.mk 5 "person" "person_created" "d5")
    (by decide) rfl (by decide) (by decide) (by decide) (by decide) (by decide)

/-! ## C9: the jittered backoff window -/

theorem durations_getD_eq :
    ∀ i < 10, ExponentialBackoff.durations.getD i 0 = 2 ^ i * 1000 := by decide

theorem duration_closed (a : Nat) (r : ℚ) :
    ExponentialBackoff.duration a r =
      ⌊((2 ^ min a 9 * 1000 : Nat) : ℚ) / 2 + r * ((2 ^ min a 9 * 1000 : Nat) : ℚ)⌋ := by
  have hlen : ExponentialBackoff.durations.length = 10 := rfl
  have hm : min a 9 < 10 := lt_of_le_of_lt (min_le_right a 9) (by norm_num)
  simp only [ExponentialBackoff.duration, hlen]
  rw [durations_getD_eq (min a 9) hm]

theorem duration_lower (a : Nat) (r : ℚ) (h0 : 0 ≤ r) :
    ((2 ^ min a 9 * 500 : Nat) : Int) ≤ ExponentialBackoff.duration a r := by
  rw [duration_closed]
  apply Int.le_floor.mpr
  push_cast
  nlinarith [pow_nonneg (by norm_num : (0:ℚ) ≤ 2) (min a 9)]

theorem duration_upper (a : Nat) (r : ℚ) (h1 : r < 1) :
    ExponentialBackoff.duration a r < 3 * ((2 ^ min a 9 * 500 : Nat) : Int) := by
  rw [duration_closed]
  apply Int.floor_lt.mpr
  push_cast
  nlinarith [pow_pos (by norm_num : (0:ℚ) < 2) (min a 9)]

/-- C9: for every attempts value `a` and draw `r ∈ [0,1)`, the computed
window is `⌊d/2 + r·d⌋` with `d = durations[min(a, length-1)]`; the table
has 10 entries, entry `i` is `2^i` times the 1000 ms base, the entries are
strictly ascending, and consequently the window lies in `[d/2, 3d/2)`. -/
theorem backoff_window_formula (a : Nat) (r : ℚ) (h0 : 0 ≤ r) (h1 : r < 1) :
    ExponentialBackoff.duration a r =
      ⌊((2 ^ min a 9 * 1000 : Nat) : ℚ) / 2 + r * ((2 ^ min a 9 * 1000 : Nat) : ℚ)⌋ ∧
    ExponentialBackoff.durations.length = 10 ∧
    (∀ i < 10, ExponentialBackoff.durations.getD i 0 = 2 ^ i * 1000) ∧
    List.Pairwise (· < ·) ExponentialBackoff.durations ∧
    ((2 ^ min a 9 * 500 : Nat) : Int) ≤ ExponentialBackoff.duration a r ∧
    ExponentialBackoff.duration a r < 3 * ((2 ^ min a 9 * 500 : Nat) : Int) :=
  ⟨duration_closed a r, rfl, durations_getD_eq, by decide,
   duration_lower a r h0, duration_upper a r h1⟩

/-- Witness for C9 at attempts 3 and draw 1/3. -/
theorem backoff_window_formula_witness :
    (0 ≤ (1/3 : ℚ)) ∧ ((1/3 : ℚ) < 1) ∧
    (ExponentialBackoff.duration 3 (1/3) =
        ⌊((2 ^ min 3 9 * 1000 : Nat) : ℚ) / 2 + (1/3) * ((2 ^ min 3 9 * 1000 : Nat) : ℚ)⌋ ∧
      ExponentialBackoff.durations.length = 10 ∧
      (∀ i < 10, ExponentialBackoff.durations.getD i 0 = 2 ^ i * 1000) ∧
      List.Pairwise (· < ·) ExponentialBackoff.durations ∧
      ((2 ^ min 3 9 * 500 : Nat) : Int) ≤ ExponentialBackoff.duration 3 (1/3) ∧
      ExponentialBackoff.duration 3 (1/3) < 3 * ((2 ^ min 3 9 * 500 : Nat) : Int)) :=
  ⟨by norm_num, by norm_num, backoff_window_formula 3 (1/3) (by norm_num) (by norm_num)⟩

/-! ## C8: attempts across scheduler ticks -/

theorem idleTicks_state (n : Nat) :
    (idleTicks n).attempts = n ∧ (idleTicks n).triggeredAt = 0 := by
  induction n with
  | zero => exact ⟨rfl, rfl⟩
  | succ n ih =>
      have hit : idleTicks (n + 1) = CronBackoff.tick (idleTicks n) 0 0 false 0 :=
        Function.iterate_succ_apply' (fun s => CronBackoff.tick s 0 0 false 0) n ⟨0, 0⟩
      rw [hit]
      unfold CronBackoff.tick
      by_cases h : CronBackoff.suppressed (idleTicks n) 0 0
      · rw [if_pos h]
        exact ⟨by rw [ih.1], ih.2⟩
      · rw [if_neg h]
        exact ⟨by simp [ih.1], rfl⟩

/-- C8 counterexample: `attempts` is not capped.  From a fresh state,
512001 consecutive idle ticks drive `attempts` to 512001, which exceeds the
table's last entry (512000), and already 10 idle ticks drive it past the
table's last index (9) — the `Math.min` cap lives only in the `duration`
getter, not on the counter. -/
theorem backoff_attempts_exceed_cap :
    ExponentialBackoff.durations.getD 9 0 < (idleTicks 512001).attempts ∧
    ExponentialBackoff.durations.length - 1 < (idleTicks 10).attempts := by
  constructor
  · rw [(idleTicks_state 512001).1]
    decide
  · rw [(idleTicks_state 10).1]
    decide

/-- C8 amended: a suppressed tick increments `attempts` by exactly one and
leaves `triggeredAt` unchanged; an unsuppressed tick whose work is
unproductive also increments `attempts` by one; a single productive tick
resets `attempts` to 0; the counter itself is unbounded — what is capped at
the table's last entry is the backoff window, since the duration index is
`min(attempts, 9)`. -/
theorem backoff_attempts_amended (s : CronBackoffState) (now : Int) (r : ℚ)
    (executed : Bool) (now2 : Int) :
    (CronBackoff.suppressed s now r →
       (CronBackoff.tick s now r executed now2).attempts = s.attempts + 1 ∧
       (CronBackoff.tick s now r executed now2).triggeredAt = s.triggeredAt) ∧
    (¬ CronBackoff.suppressed s now r → executed = false →
       (CronBackoff.tick s now r executed now2).attempts = s.attempts + 1) ∧
    (¬ CronBackoff.suppressed s now r → executed = true →
       (CronBackoff.tick s now r executed now2).attempts = 0) ∧
    (∀ a : Nat, 9 ≤ a → ExponentialBackoff.duration a r = ExponentialBackoff.duration 9 r) := by
  refine ⟨?_, ?_, ?_, ?_⟩
  · intro h
    unfold CronBackoff.tick
    rw [if_pos h]
    exact ⟨rfl, rfl⟩
  · intro h he
    unfold CronBackoff.tick
    rw [if_neg h, he]
    rfl
  · intro h he
    unfold CronBackoff.tick
    rw [if_neg h, he]
    rfl
  · intro a ha
    rw [duration_closed, duration_closed]
    rw [min_eq_right ha]
    rfl

/-- Witness for C8's amended theorem: a suppressed tick from attempts 3
yields 4; a productive unsuppressed tick from attempts 5 resets to 0. -/
theorem backoff_attempts_amended_witness :
    (CronBackoff.tick ⟨3, 0⟩ 0 0 false 7).attempts = 3 + 1 ∧
    (CronBackoff.tick ⟨5, 0⟩ 100000000 0 true 7).attempts = 0 :=
  ⟨((backoff_attempts_amended ⟨3, 0⟩ 0 0 false 7).1 (by
      unfold CronBackoff.suppressed
      refine ⟨by norm_num, ?_⟩
      show (0 : Int) < ExponentialBackoff.duration 3 0 + 0
      have h := duration_lower 3 0 le_rfl
      have h4 : ((2 ^ min 3 9 * 500 : Nat) : Int) = 4000 := by norm_num
      rw [h4] at h
      omega)).1,
   (backoff_attempts_amended ⟨5, 0⟩ 100000000 0 true 7).2.2.1 (by
      intro hs
      have h2 : (100000000 : Int) < ExponentialBackoff.duration 5 0 + 0 := hs.2
      have h := duration_upper 5 0 (by norm_num)
      have h48 : (3 * ((2 ^ min 5 9 * 500 : Nat) : Int)) = 48000 := by norm_num
      rw [h48] at h
      omega) rfl⟩

/-! ## C4: targeted exclusive claims -/

/-- C4 counterexample: the `db.on("notification")` handler of src/index.js
uses plain `FOR UPDATE` (no NOWAIT), so a contended call waits for the lock
instead of failing; once the winner has committed its delete, the loser
still runs its processing step (the code never checks the selected rows)
and deletes 0 rows.  Of two such concurrent calls for event id 1 — the
second running after the first's commit, as plain FOR UPDATE serialises
them — both report processed, and neither observes contention: the claim's
"exactly one caller succeeds and the others observe contention" fails on
this cited claim path. -/
theorem notificationHandler_duplicate_processing :
    (notificationHandler ⟨[Event.mk 1 "person" "person_created" "d1"], []⟩ 1).2.1 = true ∧
    (notificationHandler
        (notificationHandler ⟨[Event.mk 1 "person" "person_created" "d1"], []⟩ 1).1
        1).2.1 = true ∧
    (notificationHandler
        (notificationHandler ⟨[Event.mk 1 "person" "person_created" "d1"], []⟩ 1).1
        1).2.2 = 0 := by
  decide

/-- C4 amended: for the `stream` claim path (`FOR UPDATE NOWAIT`,
src/unnamed/part_003), a targeted claim on a row locked by another
in-flight transaction returns lock-not-available at once with the state
unchanged (no waiting and no queued lock); on a free row it claims the row
and holds its lock, a second concurrent claim for the same id then gets
lock-not-available, and once the winner has processed, deleted and
committed, the row is gone, so a later claim returns empty — hence exactly
one of the concurrent claimants obtains the event.  (In the JavaScript the
loser's lock-not-available error is rolled back and rethrown, so the
contention is surfaced as a distinguished error rather than silently.) -/
theorem stream_targeted_claim_mutex (s : LockState) (targetId : Nat) (e : Event)
    (hfind : s.events.find? (fun r => r.id == targetId) = some e) :
    (s.locked.contains targetId = true →
       streamAcquire s targetId = (.lockNotAvailable, s)) ∧
    (s.locked.contains targetId = false →
       streamAcquire s targetId = (.claimed e, { s with locked := targetId :: s.locked }) ∧
       (streamAcquire { s with locked := targetId :: s.locked } targetId).1 =
         .lockNotAvailable ∧
       (let s2 := (streamFinish { s with locked := targetId :: s.locked } e true).1
        streamAcquire s2 targetId = (.empty, s2))) := by
  have hid0 := List.find?_some hfind
  have hid : (e.id == targetId) = true := hid0
  have hideq : e.id = targetId := by simpa using hid
  refine ⟨?_, ?_⟩
  · intro hlock
    simp only [streamAcquire, hfind, hlock, if_true]
  · intro hfree
    refine ⟨?_, ?_, ?_⟩
    · simp only [streamAcquire, hfind, hfree]
      rfl
    · simp only [streamAcquire, hfind]
      have : ((targetId :: s.locked).contains targetId) = true := by
        simp [List.contains_cons]
      simp [this]
    · have hnone : ((streamFinish { s with locked := targetId :: s.locked } e true).1).events.find?
          (fun r => r.id == targetId) = none := by
        simp only [streamFinish, if_pos]
        apply List.find?_eq_none.mpr
        intro x hx
        have hxmem := List.of_mem_filter hx
        simp only [bne_iff_ne, ne_eq, decide_eq_true_eq] at hxmem
        simp only [beq_iff_eq]
        rw [hideq] at hxmem
        simpa using hxmem
      simp only [streamAcquire, hnone]

/-- Witness for C4's amended theorem: with event id 1 present and unlocked,
the first claim obtains the event and locks the row, and a concurrent
second claim gets lock-not-available. -/
theorem stream_targeted_claim_mutex_witness :
    streamAcquire ⟨[Event.mk 1 "person" "person_created" "d1"], []⟩ 1 =
      (.claimed (Event.mk 1 "person" "person_created" "d1"),
       ⟨[Event.mk 1 "person" "person_created" "d1"], [1]⟩) ∧
    (streamAcquire ⟨[Event.mk 1 "person" "person_created" "d1"], [1]⟩ 1).1 =
      .lockNotAvailable :=
  ⟨((stream_targeted_claim_mutex ⟨[Event.mk 1 "person" "person_created" "d1"], []⟩ 1
      (Event.mk 1 "person" "person_created" "d1") (by decide)).2 (by decide)).1,
   ((stream_targeted_claim_mutex ⟨[Event.mk 1 "person" "person_created" "d1"], []⟩ 1
      (Event.mk 1 "person" "person_created" "d1") (by decide)).2 (by decide)).2.1⟩
